import Mathlib

/-!
# ScholarSync core: shallow embedding and verification

Shallow embedding of the document-understanding / corpus-similarity core of
the ScholarSync repository (`scholarsync/` package), together with theorems
settling the specification's claims about it.

Conventions of the embedding:
* Python `str` values are modelled as `List Char` (accessed from string
  literals through `String.data`); Python string methods (`lower`, `strip`,
  `re.sub` on the concrete patterns used) are translated character by
  character.
* Python `None`-able values are `Option`; raised/caught exceptions at a
  component boundary are `Except` / `Option` results.
* Network transports are parameters of the embedded functions: a function of
  the request (or of the attempt index) to an abstract outcome, so that the
  claims can quantify over transport behaviour.
-/

namespace ScholarSync

/-! ## Python string primitives (`scholarsync.utils.text` helpers) -/

/-- The characters matched by Python's `\s` / removed by `str.strip()`. -/
def pyIsSpace (c : Char) : Bool :=
  c = ' ' || c = '\t' || c = '\n' || c = '\x0d' || c = '\x0b' || c = '\x0c'

/-- Python `str.strip()`: drop whitespace from both ends. -/
def pyStrip (l : List Char) : List Char :=
  ((l.dropWhile pyIsSpace).reverse.dropWhile pyIsSpace).reverse

/-- `re.sub(r"\s+", " ", text)`: every maximal whitespace run becomes one
space.  The boolean argument records whether the previous character was part
of a whitespace run already replaced. -/
def collapseWsAux : List Char → Bool → List Char
  | [], _ => []
  | c :: cs, prevSpace =>
    if pyIsSpace c then
      if prevSpace then collapseWsAux cs true
      else ' ' :: collapseWsAux cs true
    else c :: collapseWsAux cs false

def collapseWs (l : List Char) : List Char := collapseWsAux l false

/-- Characters kept by `re.sub(r"[^a-z0-9 ]", "", text)`. -/
def keepChar (c : Char) : Bool :=
  ('a' ≤ c && c ≤ 'z') || ('0' ≤ c && c ≤ '9') || c = ' '

/-- `scholarsync.utils.text.normalize_title`:
`text.lower().strip()`, then collapse whitespace, then strip every
character outside `[a-z0-9 ]`. -/
def normalize_title (text : List Char) : List Char :=
  (collapseWs (pyStrip (text.map Char.toLower))).filter keepChar

/-- Loop of `scholarsync.utils.text.dedupe_by_title`: `seen` is the set of
already-seen normalized keys (a list, since only membership is used). -/
def dedupeAux {α : Type} (title_getter : α → List Char) :
    List α → List (List Char) → List α
  | [], _ => []
  | item :: items, seen =>
    let key := normalize_title (title_getter item)
    if key ∈ seen then dedupeAux title_getter items seen
    else item :: dedupeAux title_getter items (key :: seen)

/-- `scholarsync.utils.text.dedupe_by_title`. -/
def dedupe_by_title {α : Type} (items : List α) (title_getter : α → List Char) :
    List α :=
  dedupeAux title_getter items []

/-- Spec-side description of deduplication (§4.8 / §8 of the spec), written
from the spec's words, to be compared with `dedupe_by_title`: keep the first
occurrence of each normalized key, drop any later item whose key was already
seen. -/
def dedupeFirstOccurrence {α : Type} (title_getter : α → List Char) :
    List α → List α
  | [] => []
  | item :: items =>
    item :: dedupeFirstOccurrence title_getter
      (items.filter
        (fun y => normalize_title (title_getter y) ≠ normalize_title (title_getter item)))
termination_by l => l.length
decreasing_by
  simpa using Nat.lt_succ_of_le (List.length_filter_le _ _)

/-! ## Data model (`scholarsync.models`) -/

/-- `scholarsync.models.Paper` (dataclass). -/
structure Paper where
  title : String
  abstract : String
  authors : List String
  year : Option Int
  source : String
  paper_url : String
  pdf_url : String
  venue : String := ""
  citations : Option Int := none
deriving DecidableEq, Repr

/-- A paper carrying only a title, as in the spec's dedup scenarios. -/
def mkPaper (t : String) : Paper :=
  { title := t, abstract := "", authors := [], year := none, source := ""
    paper_url := "", pdf_url := "" }

/-! ## Lemmas about deduplication -/

theorem dedupeAux_sublist {α : Type} (tg : α → List Char) :
    ∀ (xs : List α) (seen : List (List Char)),
      (dedupeAux tg xs seen).Sublist xs := by
  intro xs
  induction xs with
  | nil => intro seen; simp [dedupeAux]
  | cons x xs ih =>
    intro seen
    by_cases hk : normalize_title (tg x) ∈ seen
    · simpa [dedupeAux, hk] using (ih seen).cons x
    · simpa [dedupeAux, hk] using (ih (normalize_title (tg x) :: seen)).cons₂ x

theorem dedupeAux_key_not_seen {α : Type} (tg : α → List Char) :
    ∀ (xs : List α) (seen : List (List Char)) (y : α),
      y ∈ dedupeAux tg xs seen → normalize_title (tg y) ∉ seen := by
  intro xs
  induction xs with
  | nil => intro seen y hy; simp [dedupeAux] at hy
  | cons x xs ih =>
    intro seen y hy
    by_cases hk : normalize_title (tg x) ∈ seen
    · exact ih seen y (by simpa [dedupeAux, hk] using hy)
    · rw [dedupeAux, if_neg hk] at hy
      rcases List.mem_cons.1 hy with rfl | hy
      · exact hk
      · have := ih _ y hy
        intro hmem
        exact this (List.mem_cons_of_mem _ hmem)

theorem dedupeAux_pairwise {α : Type} (tg : α → List Char) :
    ∀ (xs : List α) (seen : List (List Char)),
      (dedupeAux tg xs seen).Pairwise
        (fun a b => normalize_title (tg a) ≠ normalize_title (tg b)) := by
  intro xs
  induction xs with
  | nil => intro seen; simp [dedupeAux]
  | cons x xs ih =>
    intro seen
    by_cases hk : normalize_title (tg x) ∈ seen
    · simpa [dedupeAux, hk] using ih seen
    · rw [dedupeAux, if_neg hk]
      refine List.Pairwise.cons ?_ (ih _)
      intro b hb heq
      have := dedupeAux_key_not_seen tg xs _ b hb
      exact this (heq ▸ List.mem_cons_self _ _)

theorem dedupeAux_covers {α : Type} (tg : α → List Char) :
    ∀ (xs : List α) (seen : List (List Char)) (x : α), x ∈ xs →
      normalize_title (tg x) ∈ seen ∨
        ∃ y ∈ dedupeAux tg xs seen,
          normalize_title (tg y) = normalize_title (tg x) := by
  intro xs
  induction xs with
  | nil => intro seen x hx; simp at hx
  | cons a xs ih =>
    intro seen x hx
    by_cases hk : normalize_title (tg a) ∈ seen
    · rw [dedupeAux, if_pos hk]
      rcases List.mem_cons.1 hx with rfl | hx
      · exact Or.inl hk
      · exact ih seen x hx
    · rw [dedupeAux, if_neg hk]
      rcases List.mem_cons.1 hx with rfl | hx
      · exact Or.inr ⟨x, List.mem_cons_self _ _, rfl⟩
      · rcases ih (normalize_title (tg a) :: seen) x hx with hseen | ⟨y, hy, hkey⟩
        · rcases List.mem_cons.1 hseen with heq | hseen
          · exact Or.inr ⟨a, List.mem_cons_self _ _, heq.symm⟩
          · exact Or.inl hseen
        · exact Or.inr ⟨y, List.mem_cons_of_mem _ hy, hkey⟩

theorem dedupeFirstOccurrence_cons {α : Type} (tg : α → List Char) (x : α)
    (l : List α) :
    dedupeFirstOccurrence tg (x :: l) =
      x :: dedupeFirstOccurrence tg
        (l.filter
          (fun y => normalize_title (tg y) ≠ normalize_title (tg x))) := by
  rw [dedupeFirstOccurrence.eq_def]

theorem dedupeAux_eq_firstOccurrence {α : Type} (tg : α → List Char) :
    ∀ (xs : List α) (seen : List (List Char)),
      dedupeAux tg xs seen =
        dedupeFirstOccurrence tg
          (xs.filter (fun y => decide (normalize_title (tg y) ∉ seen))) := by
  intro xs
  induction xs with
  | nil => intro seen; simp [dedupeAux, dedupeFirstOccurrence]
  | cons x xs ih =>
    intro seen
    by_cases hk : normalize_title (tg x) ∈ seen
    · rw [dedupeAux, if_pos hk, List.filter_cons, if_neg (by simp [hk])]
      exact ih seen
    · rw [dedupeAux, if_neg hk, List.filter_cons, if_pos (by simp [hk]),
        dedupeFirstOccurrence_cons]
      congr 1
      rw [ih (normalize_title (tg x) :: seen), List.filter_filter]
      exact congrArg _ (List.filter_congr (fun y _ => by
        by_cases h1 : normalize_title (tg y) = normalize_title (tg x) <;>
          by_cases h2 : normalize_title (tg y) ∈ seen <;>
            simp [h1, h2]))

theorem dedupe_eq_firstOccurrence {α : Type} (tg : α → List Char)
    (items : List α) :
    dedupe_by_title items tg = dedupeFirstOccurrence tg items := by
  rw [dedupe_by_title, dedupeAux_eq_firstOccurrence]
  congr 1
  simp

theorem length_filter_le_one_of_pairwise {α β : Type} [DecidableEq β]
    (f : α → β) (k : β) :
    ∀ l : List α, l.Pairwise (fun a b => f a ≠ f b) →
      (l.filter (fun x => decide (f x = k))).length ≤ 1 := by
  intro l
  induction l with
  | nil => intro _; simp
  | cons a l ih =>
    intro hl
    rw [List.filter_cons]
    by_cases ha : f a = k
    · rw [if_pos (by simp [ha])]
      have : l.filter (fun x => decide (f x = k)) = [] := by
        rw [List.filter_eq_nil_iff]
        intro b hb
        have := (List.pairwise_cons.1 hl).1 b hb
        simp only [decide_eq_true_eq]
        intro hbk
        exact this (by rw [ha, hbk])
      simp [this]
    · rw [if_neg (by simp [ha])]
      exact ih (List.pairwise_cons.1 hl).2

/-! ## Character-level lemmas for title normalization -/

theorem ofNat_le_uint32 {k : Nat} (h : k < UInt32.size) (u : UInt32) :
    (UInt32.ofNat k ≤ u) ↔ k ≤ u.toNat := by
  rw [UInt32.le_def, BitVec.le_def, UInt32.toBitVec_eq_of_lt h]
  exact Iff.rfl

theorem uint32_le_ofNat {k : Nat} (h : k < UInt32.size) (u : UInt32) :
    (u ≤ UInt32.ofNat k) ↔ u.toNat ≤ k := by
  rw [UInt32.le_def, BitVec.le_def, UInt32.toBitVec_eq_of_lt h]
  exact Iff.rfl

theorem isUpper_iff (c : Char) :
    c.isUpper = true ↔ 65 ≤ c.toNat ∧ c.toNat ≤ 90 := by
  show ((c.val ≥ 65 && c.val ≤ 90) = true) ↔ _
  rw [Bool.and_eq_true, decide_eq_true_eq, decide_eq_true_eq,
    show (65 : UInt32) = UInt32.ofNat 65 from rfl,
    show (90 : UInt32) = UInt32.ofNat 90 from rfl]
  exact and_congr (ofNat_le_uint32 (by decide) _) (uint32_le_ofNat (by decide) _)

theorem isLower_iff (c : Char) :
    c.isLower = true ↔ 97 ≤ c.toNat ∧ c.toNat ≤ 122 := by
  show ((c.val ≥ 97 && c.val ≤ 122) = true) ↔ _
  rw [Bool.and_eq_true, decide_eq_true_eq, decide_eq_true_eq,
    show (97 : UInt32) = UInt32.ofNat 97 from rfl,
    show (122 : UInt32) = UInt32.ofNat 122 from rfl]
  exact and_congr (ofNat_le_uint32 (by decide) _) (uint32_le_ofNat (by decide) _)

theorem isDigit_iff (c : Char) :
    c.isDigit = true ↔ 48 ≤ c.toNat ∧ c.toNat ≤ 57 := by
  show ((c.val ≥ 48 && c.val ≤ 57) = true) ↔ _
  rw [Bool.and_eq_true, decide_eq_true_eq, decide_eq_true_eq,
    show (48 : UInt32) = UInt32.ofNat 48 from rfl,
    show (57 : UInt32) = UInt32.ofNat 57 from rfl]
  exact and_congr (ofNat_le_uint32 (by decide) _) (uint32_le_ofNat (by decide) _)

theorem char_le_iff (a c : Char) : (a ≤ c) ↔ a.toNat ≤ c.toNat := by
  rw [Char.le_def, UInt32.le_def, BitVec.le_def]
  exact Iff.rfl

theorem isAlpha_false (c : Char) (h : c.isAlpha = false) :
    ¬ (65 ≤ c.toNat ∧ c.toNat ≤ 90) ∧ ¬ (97 ≤ c.toNat ∧ c.toNat ≤ 122) := by
  rw [Char.isAlpha, Bool.or_eq_false_iff] at h
  exact ⟨fun hc => by rw [(isUpper_iff c).mpr hc] at h; exact absurd h.1 (by simp),
    fun hc => by rw [(isLower_iff c).mpr hc] at h; exact absurd h.2 (by simp)⟩

theorem toLower_eq_self {c : Char} (h : c.isAlpha = false) : c.toLower = c := by
  obtain ⟨hu, _⟩ := isAlpha_false c h
  rw [Char.toLower]
  exact if_neg hu

theorem keepChar_eq_false {c : Char} (h1 : c.isAlpha = false)
    (h2 : c.isDigit = false) (h3 : pyIsSpace c = false) :
    keepChar c = false := by
  obtain ⟨_, hl⟩ := isAlpha_false c h1
  have hd : ¬ (48 ≤ c.toNat ∧ c.toNat ≤ 57) := fun hc => by
    rw [(isDigit_iff c).mpr hc] at h2; exact absurd h2 (by simp)
  have hs : ¬ (c = ' ') := fun hc => by
    rw [hc] at h3; exact absurd h3 (by decide)
  rw [keepChar, Bool.or_eq_false_iff, Bool.or_eq_false_iff]
  refine ⟨⟨?_, ?_⟩, ?_⟩
  · rw [Bool.and_eq_false_iff]
    by_cases hle : 'a' ≤ c
    · right
      rw [decide_eq_false_iff_not]
      intro hcz
      exact hl ⟨(char_le_iff _ _).mp hle, (char_le_iff _ _).mp hcz⟩
    · left; rw [decide_eq_false_iff_not]; exact hle
  · rw [Bool.and_eq_false_iff]
    by_cases hle : '0' ≤ c
    · right
      rw [decide_eq_false_iff_not]
      intro hc9
      exact hd ⟨(char_le_iff _ _).mp hle, (char_le_iff _ _).mp hc9⟩
    · left; rw [decide_eq_false_iff_not]; exact hle
  · rw [decide_eq_false_iff_not]; exact hs

theorem collapseWsAux_eq_self :
    ∀ (l : List Char) (b : Bool), (∀ c ∈ l, pyIsSpace c = false) →
      collapseWsAux l b = l := by
  intro l
  induction l with
  | nil => intro b _; rfl
  | cons c cs ih =>
    intro b h
    rw [collapseWsAux]
    rw [if_neg (by simp [h c (List.mem_cons_self _ _)])]
    rw [ih false (fun d hd => h d (List.mem_cons_of_mem _ hd))]

theorem dropWhile_eq_self_of_none {p : Char → Bool} :
    ∀ l : List Char, (∀ c ∈ l, p c = false) → l.dropWhile p = l := by
  intro l h
  cases l with
  | nil => rfl
  | cons c cs =>
    rw [List.dropWhile_cons, if_neg (by simp [h c (List.mem_cons_self _ _)])]

theorem pyStrip_eq_self (l : List Char)
    (h : ∀ c ∈ l, pyIsSpace c = false) : pyStrip l = l := by
  rw [pyStrip, dropWhile_eq_self_of_none l h,
    dropWhile_eq_self_of_none l.reverse (fun c hc => h c (List.mem_reverse.1 hc)),
    List.reverse_reverse]

/-- A title without alphanumeric and without whitespace characters normalizes
to the empty string. -/
theorem normalize_title_eq_nil (l : List Char)
    (h : ∀ c ∈ l, c.isAlpha = false ∧ c.isDigit = false ∧ pyIsSpace c = false) :
    normalize_title l = [] := by
  have hmap : l.map Char.toLower = l := by
    have : l.map Char.toLower = l.map id :=
      List.map_congr_left (fun c hc => toLower_eq_self (h c hc).1)
    rw [this, List.map_id]
  rw [normalize_title, hmap, pyStrip_eq_self l (fun c hc => (h c hc).2.2),
    collapseWs, collapseWsAux_eq_self l false (fun c hc => (h c hc).2.2)]
  rw [List.filter_eq_nil_iff]
  intro c hc
  simp [keepChar_eq_false (h c hc).1 (h c hc).2.1 (h c hc).2.2]

/-! ## Claims C3 and C10: deduplication -/

/-- Claim C3: `dedupe_by_title` preserves first-seen order, keeps the first
occurrence of each normalized title and drops later duplicates (it equals the
spec-side first-occurrence dedup, is a sublist of the input, has pairwise
distinct normalized titles, and every input title is represented); and the
two-element list with titles "Deep Learning for X" and "deep learning for
x!!" dedupes to the first item alone. -/
theorem C3_dedupe_contract :
    (∀ (α : Type) (tg : α → List Char) (items : List α),
        dedupe_by_title items tg = dedupeFirstOccurrence tg items
        ∧ (dedupe_by_title items tg).Sublist items
        ∧ (dedupe_by_title items tg).Pairwise
            (fun a b => normalize_title (tg a) ≠ normalize_title (tg b))
        ∧ ∀ x ∈ items, ∃ y ∈ dedupe_by_title items tg,
            normalize_title (tg y) = normalize_title (tg x))
    ∧ dedupe_by_title
        [mkPaper "Deep Learning for X", mkPaper "deep learning for x!!"]
        (fun p => p.title.data)
      = [mkPaper "Deep Learning for X"] := by
  refine ⟨fun α tg items => ⟨dedupe_eq_firstOccurrence tg items,
    dedupeAux_sublist tg items [], dedupeAux_pairwise tg items [],
    fun x hx => ?_⟩, by decide⟩
  rcases dedupeAux_covers tg items [] x hx with hseen | hex
  · simp at hseen
  · exact hex

/-- Claim C3 witness: the universally quantified part instantiated at a
concrete one-element list. -/
theorem C3_witness :
    ∃ y ∈ dedupe_by_title [mkPaper "ML"] (fun p => p.title.data),
      normalize_title (y.title.data)
        = normalize_title ((mkPaper "ML").title.data) :=
  (C3_dedupe_contract.1 Paper (fun p => p.title.data) [mkPaper "ML"]).2.2.2
    (mkPaper "ML") (List.mem_singleton.mpr rfl)

/-- Claim C10 counterexample: the titles "? ?" and "!!!" both contain no
alphanumeric character, yet they do not collide under `normalize_title`
("? ?" keeps its interior space), so `dedupe_by_title` keeps both — the
claim's "keeps only the first of them" fails, as does "all such titles
normalize to the empty string". -/
theorem C10_counterexample :
    ("? ?".data.all (fun c => !(c.isAlpha || c.isDigit)) = true)
    ∧ ("!!!".data.all (fun c => !(c.isAlpha || c.isDigit)) = true)
    ∧ dedupe_by_title [mkPaper "? ?", mkPaper "!!!"] (fun p => p.title.data)
        = [mkPaper "? ?", mkPaper "!!!"]
    ∧ normalize_title "? ?".data ≠ [] := by
  refine ⟨by decide, by decide, by decide, by decide⟩

/-- Claim C10 (amended): every title containing neither alphanumeric nor
whitespace characters normalizes to the empty string; the dedupe output never
contains two items whose normalized title is empty; and the concrete list
with titles "???" and "!!!" keeps only the first. -/
theorem C10_empty_key_collision :
    (∀ l : List Char,
        (∀ c ∈ l, c.isAlpha = false ∧ c.isDigit = false ∧ pyIsSpace c = false) →
        normalize_title l = [])
    ∧ (∀ (α : Type) (tg : α → List Char) (items : List α),
        ((dedupe_by_title items tg).filter
          (fun x => decide (normalize_title (tg x) = ([] : List Char)))).length ≤ 1)
    ∧ dedupe_by_title [mkPaper "???", mkPaper "!!!"] (fun p => p.title.data)
        = [mkPaper "???"] := by
  refine ⟨normalize_title_eq_nil, fun α tg items => ?_, by decide⟩
  exact length_filter_le_one_of_pairwise (fun x => normalize_title (tg x)) []
    (dedupe_by_title items tg) (dedupeAux_pairwise tg items [])

/-- Claim C10 (amended) witness: instantiated at the title "???". -/
theorem C10_witness : normalize_title "???".data = [] :=
  C10_empty_key_collision.1 "???".data (by decide)

/-! ## Pipeline year filter (`scholarsync.pipeline._filter_by_year`) -/

/-- `scholarsync.pipeline._filter_by_year`: pass the list through unchanged
when no bound is given; otherwise keep a paper only if it has a year and the
year does not fall below a given start bound nor above a given end bound. -/
def filter_by_year (papers : List Paper) (start_year end_year : Option Int) :
    List Paper :=
  if start_year = none ∧ end_year = none then papers
  else
    papers.filter (fun paper =>
      match paper.year with
      | none => false
      | some y =>
        !(match start_year with | some s => decide (y < s) | none => false)
        && !(match end_year with | some e => decide (y > e) | none => false))

/-- Claim C4: with both bounds given, every surviving paper has a year `y`
with `s ≤ y ≤ e`; with no bound given, the list passes through unchanged
(papers without a year included); and as soon as one bound is given, no
paper without a year survives. -/
theorem C4_year_filter :
    (∀ (papers : List Paper) (s e : Int) (p : Paper),
        p ∈ filter_by_year papers (some s) (some e) →
          ∃ y, p.year = some y ∧ s ≤ y ∧ y ≤ e)
    ∧ (∀ papers : List Paper, filter_by_year papers none none = papers)
    ∧ (∀ (papers : List Paper) (sy ey : Option Int) (p : Paper),
        ¬(sy = none ∧ ey = none) →
        p ∈ filter_by_year papers sy ey → p.year ≠ none) := by
  refine ⟨fun papers s e p hp => ?_, fun papers => by simp [filter_by_year],
    fun papers sy ey p hbound hp => ?_⟩
  · rw [filter_by_year, if_neg (by simp)] at hp
    have := List.of_mem_filter hp
    cases hy : p.year with
    | none => rw [hy] at this; simp at this
    | some y =>
      rw [hy] at this
      simp only [Bool.and_eq_true, Bool.not_eq_true] at this
      exact ⟨y, rfl, by simpa using this.1, by simpa using this.2⟩
  · rw [filter_by_year, if_neg hbound] at hp
    have := List.of_mem_filter hp
    cases hy : p.year with
    | none => rw [hy] at this; simp at this
    | some y => simp [hy]

/-- Claim C4 witness: a paper from 2020 survives the [2000, 2024] filter and
indeed carries a year inside the bounds; instantiates every part of C4 at
concrete inputs. -/
theorem C4_witness :
    (∃ y, ({ mkPaper "A" with year := some 2020 } : Paper).year = some y
      ∧ (2000 : Int) ≤ y ∧ y ≤ 2024)
    ∧ filter_by_year [mkPaper "B"] none none = [mkPaper "B"]
    ∧ ({ mkPaper "A" with year := some 2020 } : Paper).year ≠ none := by
  refine ⟨C4_year_filter.1 [{ mkPaper "A" with year := some 2020 }] 2000 2024
      _ (by decide),
    C4_year_filter.2.1 [mkPaper "B"],
    C4_year_filter.2.2 [{ mkPaper "A" with year := some 2020 }]
      (some 2000) none _ (by simp) (by decide)⟩

/-! ## Resilient fetcher (`upload_analyzer._request_json_with_retries`)

The HTTP transport is a parameter: for each attempt index it yields a
timeout, a transport-level failure (`requests.RequestException`), or a
response with a status code and a parsed JSON body.  The embedded function
returns the Python result (`Option`, `none` for the soft failure) paired
with the number of attempts actually made. -/

/-- Outcome of one `requests.get` call, indexed by the attempt number. -/
inductive TransportOutcome (α : Type) where
  | timeout : TransportOutcome α
  | requestException : TransportOutcome α
  | response (status : Nat) (body : α) : TransportOutcome α

/-- The status codes the source retries explicitly:
`response.status_code in (429, 500, 502, 503, 504)`. -/
def retryable_status (s : Nat) : Bool :=
  s = 429 || s = 500 || s = 502 || s = 503 || s = 504

/-- One iteration of the retry loop's `try` body: `none` means the iteration
failed in a way the `except` clauses catch (timeout, transport failure,
retryable status, or the `requests.HTTPError` from `raise_for_status` on a
4xx/5xx status), so the loop continues or soft-fails. -/
def requestOnce {α : Type} : TransportOutcome α → Option α
  | .timeout => none
  | .requestException => none
  | .response s body =>
    if retryable_status s then none
    else if 400 ≤ s ∧ s < 600 then none
    else some body

/-- The `for attempt in range(attempts)` loop, structurally recursive on the
remaining iteration count; returns the result and attempts made. -/
def requestLoop {α : Type} (transport : Nat → TransportOutcome α) :
    Nat → Nat → Option α × Nat
  | 0, attempt => (none, attempt)
  | remaining + 1, attempt =>
    match requestOnce (transport attempt) with
    | some v => (some v, attempt + 1)
    | none => requestLoop transport remaining (attempt + 1)

/-- `upload_analyzer._request_json_with_retries` (the default of `attempts`
in the source is 3). -/
def request_json_with_retries {α : Type}
    (transport : Nat → TransportOutcome α) (attempts : Nat) : Option α × Nat :=
  requestLoop transport attempts 0

/-- Claim C2: with an always-failing transport (every attempt times out or
raises at transport level), the retrying helper with `attempts = 3` makes
exactly 3 attempts and returns no value.  No exception escapes: both failure
modes are caught by the embedded `try` body (`requestOnce` is total and
yields `none` for them). -/
theorem C2_retry_exhaustion :
    ∀ (α : Type) (transport : Nat → TransportOutcome α),
      (∀ i, transport i = .timeout ∨ transport i = .requestException) →
      request_json_with_retries transport 3 = (none, 3) := by
  intro α transport h
  have hstep : ∀ i, requestOnce (transport i) = none := by
    intro i
    rcases h i with hi | hi <;> rw [hi] <;> rfl
  rw [request_json_with_retries, requestLoop, hstep, requestLoop, hstep,
    requestLoop, hstep, requestLoop]

/-- Claim C2 witness: the always-timing-out transport. -/
theorem C2_witness :
    request_json_with_retries (fun _ => (TransportOutcome.timeout : TransportOutcome Nat)) 3
      = (none, 3) :=
  C2_retry_exhaustion Nat (fun _ => TransportOutcome.timeout)
    (fun _ => Or.inl rfl)

/-! ## Metadata enricher precedence (`upload_analyzer._lookup_semantic_scholar`)

The two network lookups are parameters (`byDoi` abstracts
`_lookup_semantic_scholar_by_doi`, `byTitle` abstracts the title-search
request plus `_best_title_match`; both return `none` on any failure, as the
source's `try/except` blocks do).  The boolean in the result records whether
the title-search request block was entered, i.e. whether a title-search
request was issued. -/

/-- `upload_analyzer._lookup_semantic_scholar`, instrumented with a flag for
the title-search request.  `if doi:` / `if not title:` are Python string
truthiness, i.e. the `≠ []` tests. -/
def lookup_semantic_scholar {ρ : Type} (doi : Option (List Char))
    (title : Option (List Char)) (byDoi : List Char → Option ρ)
    (byTitle : List Char → Option ρ) : Option ρ × Bool :=
  let titlePhase : Option ρ × Bool :=
    match title with
    | none => (none, false)
    | some t => if t = [] then (none, false) else (byTitle t, true)
  match doi with
  | some d =>
    if d ≠ [] then
      match byDoi d with
      | some exact => (some exact, false)
      | none => titlePhase
    else titlePhase
  | none => titlePhase

/-- Claim C7: when a (non-empty) DOI is present and the direct identifier
lookup succeeds, the enricher returns that result immediately and issues no
title-search request, whatever the title argument is. -/
theorem C7_doi_precedence :
    ∀ (ρ : Type) (d : List Char) (title : Option (List Char))
      (byDoi byTitle : List Char → Option ρ) (r : ρ),
      d ≠ [] → byDoi d = some r →
      lookup_semantic_scholar (some d) title byDoi byTitle = (some r, false) := by
  intro ρ d title byDoi byTitle r hd hr
  rw [lookup_semantic_scholar.eq_def]
  simp only [if_pos hd, hr]

/-- Claim C7 witness: a concrete DOI whose direct lookup succeeds. -/
theorem C7_witness :
    lookup_semantic_scholar "10.1000/xyz123".data (some "some title".data)
      (fun _ => some 7) (fun _ => some 8) = (some 7, false) :=
  C7_doi_precedence Nat "10.1000/xyz123".data (some "some title".data)
    (fun _ => some 7) (fun _ => some 8) 7 (by decide) rfl

/-! ## Source aggregator resilience (`services.paper_search`)

The two backend calls are parameters: the outcome of `_search_arxiv` and of
`_search_semantic_scholar`, where `Except.error` models a raised
`requests.RequestException`.  The fallback re-invokes the arXiv backend; the
embedding treats the backend outcome as deterministic within one
`safe_search` call. -/

/-- `PaperSearchService.search`: arXiv results then Semantic Scholar results,
concatenated; a raise in either aborts the combined attempt. -/
def search_combined {ε : Type} (arxivRes semschRes : Except ε (List Paper)) :
    Except ε (List Paper) :=
  match arxivRes with
  | .error e => .error e
  | .ok pa =>
    match semschRes with
    | .error e => .error e
    | .ok pb => .ok (pa ++ pb)

/-- `PaperSearchService.safe_search`: try the combined search; on a
transport-level error fall back to the arXiv backend alone (whose own error,
if any, propagates). -/
def safe_search {ε : Type} (arxivRes semschRes : Except ε (List Paper)) :
    Except ε (List Paper) :=
  match search_combined arxivRes semschRes with
  | .ok r => .ok r
  | .error _ => arxivRes

/-- Claim C8: if the combined search raises because the second backend
raised, `safe_search` returns the first backend's results without raising;
and `safe_search` only raises when the arXiv backend itself raised. -/
theorem C8_safe_search_fallback :
    (∀ (ε : Type) (a b : Except ε (List Paper)) (ra : List Paper) (e : ε),
        a = .ok ra → b = .error e → safe_search a b = .ok ra)
    ∧ (∀ (ε : Type) (a b : Except ε (List Paper)) (e : ε),
        safe_search a b = .error e → a = .error e) := by
  constructor
  · intro ε a b ra e ha hb
    rw [ha, hb]
    rfl
  · intro ε a b e h
    rcases a with ea | ra
    · rcases b with eb | rb <;> simpa [safe_search, search_combined] using h
    · rcases b with eb | rb <;> simp [safe_search, search_combined] at h

/-- Claim C8 witness: second backend raises, first succeeds; the fallback
returns the first backend's results. -/
theorem C8_witness :
    safe_search (Except.ok [mkPaper "A"]) (Except.error ()) =
      Except.ok [mkPaper "A"] :=
  C8_safe_search_fallback.1 Unit (Except.ok [mkPaper "A"]) (Except.error ())
    [mkPaper "A"] () rfl rfl

/-! ## Section extractor (`scholarsync.analyzers.section_extractor`) -/

/-- Loop of `re.split(r"(?<=[.!?])\s+", text)`: `acc` is the current chunk,
reversed.  A whitespace character whose predecessor (the head of `acc`) is
`.`, `!` or `?` starts a separator; the separator greedily consumes the
whole whitespace run. -/
def sentenceBoundary (acc : List Char) : Bool :=
  match acc with
  | p :: _ => p = '.' || p = '!' || p = '?'
  | [] => false

def sentSplitAux : List Char → List Char → Bool → List (List Char)
  | [], acc, _ => [acc.reverse]
  | c :: cs, acc, inSep =>
    if pyIsSpace c then
      if inSep then sentSplitAux cs acc true
      else if sentenceBoundary acc then
        acc.reverse :: sentSplitAux cs [] true
      else sentSplitAux cs (c :: acc) false
    else sentSplitAux cs (c :: acc) false

/-- `SectionExtractor._split_sentences`: strip, short-circuit on empty,
split at sentence boundaries, strip every chunk and drop empty chunks. -/
def split_sentences (text : List Char) : List (List Char) :=
  let t := pyStrip text
  if t = [] then []
  else ((sentSplitAux t [] false).map pyStrip).filter (fun c => !c.isEmpty)

/-- `SECTION_KEYWORDS` of the source, as a function from the category name
(a Python dict; the source only ever looks up the five keys below, any other
key would raise `KeyError`, modelled as the empty list). -/
def SECTION_KEYWORDS (sec : String) : List (List Char) :=
  (if sec = "literature_review" then
    ["related work", "previous work", "prior work", "existing methods",
     "state-of-the-art", "literature", "baseline", "compared"]
  else if sec = "method_used" then
    ["we propose", "our approach", "method", "framework", "architecture",
     "algorithm", "model", "training", "dataset", "evaluation", "experiment"]
  else if sec = "contributions" then
    ["contribution", "we introduce", "we present", "novel", "new", "first",
     "outperform", "improve", "significant"]
  else if sec = "limitations" then
    ["limitation", "however", "challenge", "constraint", "drawback",
     "cannot", "fails", "costly", "expensive", "still difficult"]
  else if sec = "future_work" then
    ["future work", "in future", "further work", "next step",
     "can be extended", "promising direction"]
  else []).map String.data

/-- Python's substring test `needle in haystack` (contiguous occurrence). -/
def containsSub (needle : List Char) : List Char → Bool
  | [] => needle.isEmpty
  | c :: cs => needle.isPrefixOf (c :: cs) || containsSub needle cs

/-- `score = sum(1 for kw in keywords if kw in lower)` where
`lower = sent.lower()`: the number of (distinct) keywords occurring as a
substring of the lowercased sentence. -/
def scoreSentence (keywords : List (List Char)) (sent : List Char) : Nat :=
  (keywords.filter (fun kw => containsSub kw (sent.map Char.toLower))).length

/-- The `scored` list of the source: `(score, sentence)` pairs for the
sentences with positive score, in original order. -/
def scoredOf (keywords : List (List Char)) (sentences : List (List Char)) :
    List (Nat × List Char) :=
  sentences.filterMap (fun sent =>
    let score := scoreSentence keywords sent
    if 0 < score then some (score, sent) else none)

/-- Python's `list.sort(key=..., reverse=True)` is a stable descending sort
by key: all elements of key `s` appear before those of smaller key, each
group keeping its original order.  This is its extensional description:
concatenate, over key values in decreasing order, the original-order
sublists with that key. -/
def pySortDescBy {α : Type} (f : α → Nat) (l : List α) : List α :=
  ((List.range ((l.map f).foldr max 0 + 1)).reverse).flatMap
    (fun s => l.filter (fun x => decide (f x = s)))

/-- `" ".join(chunks)`. -/
def joinSpace (chunks : List (List Char)) : List Char :=
  List.intercalate [' '] chunks

/-- The `scored[:top_k]` selection: top-`top_k` sentences by score, ties in
original order. -/
def topSentences (keywords : List (List Char)) (sentences : List (List Char))
    (top_k : Nat) : List (List Char) :=
  ((pySortDescBy Prod.fst (scoredOf keywords sentences)).take top_k).map
    Prod.snd

/-- Fallback text for `limitations` when nothing scores. -/
def limitations_fallback : List Char :=
  ("Not explicitly stated in the abstract; practical constraints and " ++
   "edge-case behavior require deeper full-text review.").data

/-- Fallback text for `future_work` when nothing scores. -/
def future_work_fallback : List Char :=
  "Not explicitly stated in abstract.".data

/-- `SectionExtractor._extract_section_text`.  The `contributions` fallback
reads `sentences[-1]` and the default branch reads `sentences[0]`; every
call site guarantees `sentences` is non-empty (`extract` returns early
otherwise), and the embedding totalizes those two accesses with `[]`. -/
def extract_section_text (sentences : List (List Char)) (sec : String)
    (top_k : Nat) : List Char :=
  let keywords := SECTION_KEYWORDS sec
  let scored := scoredOf keywords sentences
  if !scored.isEmpty then
    joinSpace (topSentences keywords sentences top_k)
  else if sec = "method_used" then joinSpace (sentences.take 2)
  else if sec = "contributions" then (sentences.getLast?.getD [])
  else if sec = "limitations" then limitations_fallback
  else if sec = "future_work" then future_work_fallback
  else sentences.headD []

/-- `SectionExtractor._build_insights`. -/
def build_insights (sentences : List (List Char))
    (method_used contributions : List Char) : List Char :=
  ("This paper focuses on a concrete problem setting and proposes a " ++
   "targeted strategy. Core context: ").data
  ++ joinSpace (sentences.take 2)
  ++ " Technical direction: ".data ++ method_used
  ++ " Main outcome: ".data ++ contributions

/-- `SectionExtractor._derive_future_work`. -/
def derive_future_work (limitations : List Char) : List Char :=
  ("Inferred future direction from limitations: extend evaluation across " ++
   "more diverse datasets, improve robustness in edge cases, and optimize " ++
   "efficiency for real-world deployment. Key limitation context: ").data
  ++ limitations

/-- `SectionExtractor._derive_research_gap`. -/
def derive_research_gap (literature_review limitations future_work : List Char) :
    List Char :=
  ("Current work indicates a gap between benchmark performance and " ++
   "reliable deployment in real settings. More standardized evaluation " ++
   "protocols, transparent failure analysis, and cross-domain " ++
   "generalization studies are needed. " ++
   "Evidence from related-work context: ").data
  ++ literature_review
  ++ " Observed constraints: ".data ++ limitations
  ++ " Forward direction: ".data ++ future_work

/-- The literal every field receives on empty input — the spec's
"insufficient information" marker. -/
def NOT_ENOUGH_INFO : List Char :=
  "Not enough information in abstract.".data

/-- `SectionExtractor.sections`, in order. -/
def SECTIONS : List String :=
  ["insights", "literature_review", "method_used", "contributions",
   "limitations", "future_work", "research_gap"]

/-- `SectionExtractor.extract`: the returned Python dict, as an association
list in the source's insertion order (every value is a string by
construction). -/
def extract (abstract : List Char) : List (String × List Char) :=
  let sentences := split_sentences abstract
  if sentences.isEmpty then SECTIONS.map (fun k => (k, NOT_ENOUGH_INFO))
  else
    let literature_review := extract_section_text sentences "literature_review" 2
    let method_used := extract_section_text sentences "method_used" 3
    let contributions := extract_section_text sentences "contributions" 2
    let limitations := extract_section_text sentences "limitations" 2
    let future_work0 := extract_section_text sentences "future_work" 2
    let insights := build_insights sentences method_used contributions
    let future_work :=
      if containsSub ("Not explicitly stated".data) future_work0 then
        derive_future_work limitations
      else future_work0
    let research_gap := derive_research_gap literature_review limitations future_work
    [("insights", insights), ("literature_review", literature_review),
     ("method_used", method_used), ("contributions", contributions),
     ("limitations", limitations), ("future_work", future_work),
     ("research_gap", research_gap)]



/-- The abstract of the spec's classification scenario (§8). -/
def scenarioText : List Char :=
  ("We propose a new method. Prior work used heuristic rules. " ++
   "However, the approach is costly and limited.").data

/-! ## Lemmas about the stable descending sort -/

theorem le_foldr_max {l : List Nat} {x : Nat} (hx : x ∈ l) :
    x ≤ l.foldr max 0 := by
  induction l with
  | nil => simp at hx
  | cons a l ih =>
    rcases List.mem_cons.1 hx with rfl | hx
    · exact Nat.le_max_left _ _
    · exact le_trans (ih hx) (Nat.le_max_right _ _)

theorem flatMap_buckets_filter {α : Type} (f : α → Nat) (l : List α)
    (s : Nat) :
    ∀ ss : List Nat, ss.Nodup →
      ((ss.flatMap (fun t => l.filter (fun x => decide (f x = t)))).filter
          (fun x => decide (f x = s)))
        = if s ∈ ss then l.filter (fun x => decide (f x = s)) else [] := by
  intro ss
  induction ss with
  | nil => intro _; simp
  | cons t ts ih =>
    intro hnd
    rw [List.flatMap_cons, List.filter_append, ih (List.nodup_cons.1 hnd).2]
    by_cases hst : s = t
    · subst hst
      have h1 : (l.filter (fun x => decide (f x = s))).filter
          (fun x => decide (f x = s)) = l.filter (fun x => decide (f x = s)) := by
        rw [List.filter_filter]
        exact List.filter_congr (fun x _ => by
          by_cases hx : f x = s <;> simp [hx])
      have hs : s ∉ ts := (List.nodup_cons.1 hnd).1
      simp [h1, hs]
    · have h1 : (l.filter (fun x => decide (f x = t))).filter
          (fun x => decide (f x = s)) = [] := by
        rw [List.filter_eq_nil_iff]
        intro a ha
        have := List.of_mem_filter ha
        simp only [decide_eq_true_eq] at this ⊢
        rw [this]
        exact fun h => hst h.symm
      rw [h1, List.nil_append]
      by_cases hts : s ∈ ts <;> simp [List.mem_cons, hst, hts]

theorem mem_pySortDescBy {α : Type} {f : α → Nat} {l : List α} {x : α} :
    x ∈ pySortDescBy f l ↔ x ∈ l := by
  constructor
  · intro hx
    rcases List.mem_flatMap.1 hx with ⟨s, _, hxf⟩
    exact List.mem_of_mem_filter hxf
  · intro hx
    refine List.mem_flatMap.2 ⟨f x, ?_, ?_⟩
    · rw [List.mem_reverse, List.mem_range, Nat.lt_succ_iff]
      exact le_foldr_max (List.mem_map_of_mem f hx)
    · exact List.mem_filter.2 ⟨hx, by simp⟩

theorem pairwise_pySortDescBy {α : Type} (f : α → Nat) (l : List α) :
    (pySortDescBy f l).Pairwise (fun a b => f b ≤ f a) := by
  rw [pySortDescBy, List.pairwise_flatMap]
  constructor
  · intro s _
    refine List.pairwise_of_forall_mem_list (fun a ha b hb => ?_)
    have ha := List.of_mem_filter ha
    have hb := List.of_mem_filter hb
    simp only [decide_eq_true_eq] at ha hb
    rw [ha, hb]
  · have hlt : ((List.range ((l.map f).foldr max 0 + 1)).reverse).Pairwise
        (fun a b => b < a) := by
      rw [List.pairwise_reverse]
      exact List.pairwise_lt_range _
    refine hlt.imp_of_mem (fun hs ht h => ?_)
    intro x hx y hy
    have hx := List.of_mem_filter hx
    have hy := List.of_mem_filter hy
    simp only [decide_eq_true_eq] at hx hy
    rw [hx, hy]
    exact Nat.le_of_lt h

theorem filter_pySortDescBy {α : Type} (f : α → Nat) (l : List α) (s : Nat) :
    (pySortDescBy f l).filter (fun x => decide (f x = s))
      = l.filter (fun x => decide (f x = s)) := by
  rw [pySortDescBy, flatMap_buckets_filter f l s _
    (List.nodup_reverse.2 ((List.pairwise_lt_range _).imp Nat.ne_of_lt))]
  by_cases hs : s ∈ (List.range ((l.map f).foldr max 0 + 1)).reverse
  · rw [if_pos hs]
  · rw [if_neg hs]
    symm
    rw [List.filter_eq_nil_iff]
    intro a ha
    simp only [decide_eq_true_eq]
    intro hfa
    apply hs
    rw [List.mem_reverse, List.mem_range, Nat.lt_succ_iff, ← hfa]
    exact le_foldr_max (List.mem_map_of_mem f ha)

/-! ## Lemmas about the keyword selection -/

theorem scoredOf_eq (kw : List (List Char)) (sents : List (List Char)) :
    scoredOf kw sents =
      (sents.filter (fun s => decide (0 < scoreSentence kw s))).map
        (fun s => (scoreSentence kw s, s)) := by
  induction sents with
  | nil => rfl
  | cons a l ih =>
    by_cases h : 0 < scoreSentence kw a <;>
      simp [scoredOf, List.filterMap_cons, List.filter_cons, h,
        ← ih, scoredOf]

theorem scoredOf_fst {kw : List (List Char)} {sents : List (List Char)}
    {pr : Nat × List Char} (h : pr ∈ scoredOf kw sents) :
    pr.1 = scoreSentence kw pr.2 ∧ 0 < pr.1 ∧ pr.2 ∈ sents := by
  rw [scoredOf_eq] at h
  rcases List.mem_map.1 h with ⟨t, ht, heq⟩
  cases heq
  refine ⟨rfl, ?_, List.mem_of_mem_filter ht⟩
  simpa using List.of_mem_filter ht

theorem mem_topSentences {kw sents : List (List Char)} {K : Nat}
    {s : List Char} (hs : s ∈ topSentences kw sents K) :
    s ∈ sents ∧ 0 < scoreSentence kw s := by
  rw [topSentences] at hs
  rcases List.mem_map.1 hs with ⟨pr, hpr, rfl⟩
  have hmem : pr ∈ scoredOf kw sents :=
    mem_pySortDescBy.1 ((List.take_sublist _ _).subset hpr)
  obtain ⟨h1, h2, h3⟩ := scoredOf_fst hmem
  exact ⟨h3, h1 ▸ h2⟩

theorem length_topSentences (kw sents : List (List Char)) (K : Nat) :
    (topSentences kw sents K).length ≤ K := by
  rw [topSentences, List.length_map]
  exact List.length_take_le _ _

theorem pairwise_topSentences (kw sents : List (List Char)) (K : Nat) :
    (topSentences kw sents K).Pairwise
      (fun a b => scoreSentence kw b ≤ scoreSentence kw a) := by
  rw [topSentences, List.pairwise_map]
  have hp : ((pySortDescBy Prod.fst (scoredOf kw sents)).take K).Pairwise
      (fun pr q => q.1 ≤ pr.1) :=
    (pairwise_pySortDescBy Prod.fst (scoredOf kw sents)).sublist
      (List.take_sublist _ _)
  refine hp.imp_of_mem (fun hpr hq h => ?_)
  have e1 := (scoredOf_fst
    (mem_pySortDescBy.1 ((List.take_sublist _ _).subset hpr))).1
  have e2 := (scoredOf_fst
    (mem_pySortDescBy.1 ((List.take_sublist _ _).subset hq))).1
  rw [← e1, ← e2]
  exact h

theorem filter_topSentences (kw sents : List (List Char)) (K sc : Nat) :
    ((topSentences kw sents K).filter
        (fun s => decide (scoreSentence kw s = sc))).Sublist
      (sents.filter (fun s => decide (scoreSentence kw s = sc))) := by
  rw [topSentences, List.filter_map]
  have step1 : ((pySortDescBy Prod.fst (scoredOf kw sents)).take K).filter
        ((fun s => decide (scoreSentence kw s = sc)) ∘ Prod.snd)
      |>.Sublist ((pySortDescBy Prod.fst (scoredOf kw sents)).filter
        ((fun s => decide (scoreSentence kw s = sc)) ∘ Prod.snd)) :=
    (List.take_sublist _ _).filter _
  have step2 : (pySortDescBy Prod.fst (scoredOf kw sents)).filter
        ((fun s => decide (scoreSentence kw s = sc)) ∘ Prod.snd)
      = (pySortDescBy Prod.fst (scoredOf kw sents)).filter
        (fun pr => decide (pr.1 = sc)) :=
    List.filter_congr (fun pr hpr => by
      have := (scoredOf_fst (mem_pySortDescBy.1 hpr)).1
      simp [Function.comp, this])
  have step3 : (pySortDescBy Prod.fst (scoredOf kw sents)).filter
        (fun pr => decide (pr.1 = sc))
      = (scoredOf kw sents).filter (fun pr => decide (pr.1 = sc)) :=
    filter_pySortDescBy Prod.fst (scoredOf kw sents) sc
  have step4 : (scoredOf kw sents).filter (fun pr => decide (pr.1 = sc))
      = ((sents.filter (fun s => decide (0 < scoreSentence kw s))).filter
          (fun s => decide (scoreSentence kw s = sc))).map
        (fun s => (scoreSentence kw s, s)) := by
    rw [scoredOf_eq, List.filter_map]
    rfl
  have hchain := (step1.map Prod.snd)
  rw [step2, step3, step4] at hchain
  rw [List.map_map] at hchain
  have hid : ((sents.filter (fun s => decide (0 < scoreSentence kw s))).filter
        (fun s => decide (scoreSentence kw s = sc))).map
        (Prod.snd ∘ (fun s => (scoreSentence kw s, s)))
      = (sents.filter (fun s => decide (0 < scoreSentence kw s))).filter
        (fun s => decide (scoreSentence kw s = sc)) := List.map_id _
  rw [hid] at hchain
  exact hchain.trans
    (((List.filter_sublist _).filter _))

/-! ## Claims C5, C6, C9: section extraction -/

/-- Claim C5: for every keyword list, the selected sentences all come from
the input and contain at least one keyword (zero-score sentences excluded),
at most `K` are selected, they are ordered by non-increasing score, and
within each score the original sentence order is kept (the selection of each
score is a sublist of the input's sentences of that score); and on the
three-sentence scenario abstract, the classifier puts the first sentence in
`method_used` (K = 3), the second in `literature_review` and the third in
`limitations` (K = 2). -/
theorem C5_keyword_scoring :
    (∀ (keywords sentences : List (List Char)) (K : Nat),
        (∀ s ∈ topSentences keywords sentences K,
            s ∈ sentences ∧ 0 < scoreSentence keywords s)
        ∧ (topSentences keywords sentences K).length ≤ K
        ∧ (topSentences keywords sentences K).Pairwise
            (fun a b => scoreSentence keywords b ≤ scoreSentence keywords a)
        ∧ ∀ sc : Nat,
            ((topSentences keywords sentences K).filter
                (fun s => decide (scoreSentence keywords s = sc))).Sublist
              (sentences.filter
                (fun s => decide (scoreSentence keywords s = sc))))
    ∧ containsSub ("We propose a new method.".data)
        ((List.lookup "method_used" (extract scenarioText)).getD []) = true
    ∧ containsSub ("Prior work used heuristic rules.".data)
        ((List.lookup "literature_review" (extract scenarioText)).getD [])
        = true
    ∧ containsSub ("However, the approach is costly and limited.".data)
        ((List.lookup "limitations" (extract scenarioText)).getD [])
        = true := by
  refine ⟨fun keywords sentences K =>
    ⟨fun s hs => mem_topSentences hs,
     length_topSentences keywords sentences K,
     pairwise_topSentences keywords sentences K,
     filter_topSentences keywords sentences K⟩,
    by decide, by decide, by decide⟩

/-- Claim C5 witness: the selection facts instantiated at a concrete keyword
list and sentence list. -/
theorem C5_witness :
    "hi there.".data ∈ ["hi there.".data]
    ∧ 0 < scoreSentence ["hi".data] "hi there.".data :=
  (C5_keyword_scoring.1 ["hi".data] ["hi there.".data] 2).1
    "hi there.".data (by decide)

/-- Claim C6: an input with no sentences short-circuits `extract` to the
constant section set where every field is the insufficient-information
marker (the source's literal "Not enough information in abstract."), with no
scoring attempted; in particular every field of `extract ""` equals that
marker. -/
theorem C6_empty_input :
    (∀ text : List Char, split_sentences text = [] →
        extract text = SECTIONS.map (fun k => (k, NOT_ENOUGH_INFO)))
    ∧ (∀ kv ∈ extract "".data, kv.2 = NOT_ENOUGH_INFO) := by
  constructor
  · intro text h
    simp [extract, h]
  · decide

/-- Claim C6 witness: the short-circuit instantiated at the empty string. -/
theorem C6_witness :
    extract "".data = SECTIONS.map (fun k => (k, NOT_ENOUGH_INFO)) :=
  C6_empty_input.1 "".data (by decide)

/-- Claim C9: for every input text, `extract` returns exactly the seven keys
`insights, literature_review, method_used, contributions, limitations,
future_work, research_gap` in that order — never a `citations` key (every
value is a string (`List Char`) by the type of `extract`). -/
theorem C9_fixed_keys :
    ∀ text : List Char,
      (extract text).map Prod.fst = SECTIONS
      ∧ ((extract text).map Prod.fst).contains "citations" = false := by
  intro text
  have hkeys : (extract text).map Prod.fst = SECTIONS := by
    by_cases h : (split_sentences text).isEmpty <;>
      simp [extract, h, SECTIONS]
  exact ⟨hkeys, by rw [hkeys]; decide⟩

/-! ## Similarity graph (`corpus_analyzer.paper_network_figure`)

The TF-IDF vectorization and cosine similarity of the source are
floating-point linear algebra; the graph construction is embedded over an
abstract similarity matrix `sim : Nat → Nat → ℚ` (the value `sim i j` stands
for `cosine_similarity(matrix)[i, j]`, a value in `[0, 1]`).  The edge
threshold, the chain fallback and the node set are translated from the
source. -/

/-- The source's similarity threshold `0.12`, written as the reduced
rational `3/25` so that comparisons evaluate by kernel reduction;
`simThreshold_eq` identifies it with `12/100`. -/
def simThreshold : ℚ := Rat.mk' 3 25 (by decide) (by decide)

theorem simThreshold_eq : simThreshold = 12/100 := by
  rw [simThreshold, Rat.mk'_eq_divInt, Rat.divInt_eq_div]
  norm_num

/-- The double loop `for i in range(n): for j in range(i+1, n): if
sim[i, j] >= 0.12: add_edge(i, j, ...)`. -/
def thresholdEdges (n : Nat) (sim : Nat → Nat → ℚ) : List (Nat × Nat) :=
  (List.range n).flatMap (fun i =>
    ((List.range n).drop (i + 1)).filterMap (fun j =>
      if simThreshold ≤ sim i j then some (i, j) else none))

/-- The connectivity fallback `for i in range(n - 1): add_edge(i, i+1,
weight=0.05)`. -/
def chainEdges (n : Nat) : List (Nat × Nat) :=
  (List.range (n - 1)).map (fun i => (i, i + 1))

/-- The edge list of the graph built by `paper_network_figure` for `n ≥ 2`
papers: threshold edges, or the fallback chain when no edge resulted. -/
def paper_network_edges (n : Nat) (sim : Nat → Nat → ℚ) : List (Nat × Nat) :=
  let es := thresholdEdges n sim
  if es.isEmpty then chainEdges n else es

/-- Undirected adjacency in an edge list. -/
def edgeAdj (es : List (Nat × Nat)) (u v : Nat) : Prop :=
  (u, v) ∈ es ∨ (v, u) ∈ es

/-- Reachability along undirected edges. -/
def Reach (es : List (Nat × Nat)) : Nat → Nat → Prop :=
  Relation.ReflTransGen (edgeAdj es)

/-- A similarity matrix realizable by three abstracts: papers 0 and 1 share
their entire vocabulary (cosine similarity 1) while paper 2 shares no term
with either (cosine similarity 0). -/
def simCounter (i j : Nat) : ℚ := if i = 0 ∧ j = 1 then 1 else 0

theorem drop_range' :
    ∀ (m s k : Nat), (List.range' s k).drop m = List.range' (s + m) (k - m) := by
  intro m
  induction m with
  | zero => intro s k; simp
  | succ m ih =>
    intro s k
    cases k with
    | zero => simp
    | succ k =>
      rw [List.range'_succ, List.drop_succ_cons, ih (s + 1) k]
      congr 1 <;> omega

theorem mem_drop_range {n i j : Nat} (h : j ∈ (List.range n).drop (i + 1)) :
    i < j ∧ j < n := by
  rw [List.range_eq_range', drop_range'] at h
  have := List.mem_range'_1.1 h
  omega

/-- Claim C1 counterexample: with three papers whose similarity matrix is
`simCounter` (papers 0 and 1 identical, paper 2 unrelated), the graph has a
single edge `(0, 1)` — fewer than `n − 1 = 2` — and node 2 is unreachable
from node 0: the fallback does not fire because the edge count is not zero,
so the graph is disconnected despite having 3 ≥ 2 nodes. -/
theorem C1_counterexample :
    (¬ ((3 : Nat) - 1 ≤ (paper_network_edges 3 simCounter).length
        ∧ ∀ u, u < 3 → ∀ v, v < 3 →
            Reach (paper_network_edges 3 simCounter) u v))
    ∧ ¬ Reach (paper_network_edges 3 simCounter) 0 2 := by
  have hedges : paper_network_edges 3 simCounter = [(0, 1)] := by decide
  have hreach : ¬ Reach (paper_network_edges 3 simCounter) 0 2 := by
    rw [hedges]
    intro h
    have hmem : ∀ v, Reach [(0, 1)] 0 v → v = 0 ∨ v = 1 := by
      intro v hv
      induction hv with
      | refl => exact Or.inl rfl
      | tail hab hbc ih =>
        rcases hbc with hm | hm <;>
          · have := List.mem_singleton.1 hm
            rcases ih with h0 | h1 <;> simp_all
    rcases hmem 2 h with h2 | h2 <;> exact absurd h2 (by decide)
  refine ⟨fun hcl => ?_, hreach⟩
  rw [hedges] at hcl
  exact absurd hcl.1 (by decide)

/-- Claim C1 (amended): the chain fallback guarantees connectivity exactly
in the case it covers — when every pairwise similarity is below the
threshold, so that thresholding yields zero edges.  Then the graph is the
path `0–1–⋯–(n−1)` with exactly `n − 1` edges and every node below `n` is
reachable from every other.  (When at least one threshold edge exists, the
fallback does not fire and the graph need not be connected: see the
counterexample.) -/
theorem C1_chain_fallback :
    ∀ (n : Nat) (sim : Nat → Nat → ℚ), 2 ≤ n →
      (∀ i j, i < j → j < n → sim i j < simThreshold) →
      paper_network_edges n sim = chainEdges n
      ∧ (paper_network_edges n sim).length = n - 1
      ∧ ∀ u v, u < n → v < n → Reach (paper_network_edges n sim) u v := by
  intro n sim _ hsim
  have hempty : thresholdEdges n sim = [] := by
    rw [thresholdEdges, List.flatMap_eq_nil_iff]
    intro i _
    rw [List.filterMap_eq_nil_iff]
    intro j hj
    obtain ⟨hij, hjn⟩ := mem_drop_range hj
    rw [if_neg (not_le.2 (hsim i j hij hjn))]
  have hpn : paper_network_edges n sim = chainEdges n := by
    rw [paper_network_edges, hempty]
    rfl
  have hadj : ∀ k, k + 1 < n → edgeAdj (chainEdges n) k (k + 1) := by
    intro k hk
    exact Or.inl (List.mem_map.2 ⟨k, List.mem_range.2 (by omega), rfl⟩)
  have hreach0 : ∀ k, k < n → Reach (chainEdges n) 0 k := by
    intro k
    induction k with
    | zero => intro _; exact Relation.ReflTransGen.refl
    | succ k ih =>
      intro hk
      exact Relation.ReflTransGen.tail (ih (by omega)) (hadj k hk)
  have hsymm : Symmetric (Reach (chainEdges n)) :=
    Relation.ReflTransGen.symmetric (fun u v h => Or.symm h)
  refine ⟨hpn, by rw [hpn, chainEdges, List.length_map, List.length_range],
    fun u v hu hv => ?_⟩
  rw [hpn]
  exact Relation.ReflTransGen.trans (hsymm (hreach0 u hu)) (hreach0 v hv)

/-- Claim C1 (amended) witness: two papers, all similarities zero — the
fallback chain connects them. -/
theorem C1_witness :
    paper_network_edges 2 (fun _ _ => 0) = chainEdges 2
    ∧ (paper_network_edges 2 (fun _ _ => 0)).length = 2 - 1 :=
  ⟨(C1_chain_fallback 2 (fun _ _ => 0) (by decide)
      (fun i j _ _ => show (0 : ℚ) < simThreshold by decide)).1,
   (C1_chain_fallback 2 (fun _ _ => 0) (by decide)
      (fun i j _ _ => show (0 : ℚ) < simThreshold by decide)).2.1⟩

end ScholarSync
